import Mathlib

/-!
Verification of the swap quote engine, pool cache and pool selector.

Shallow embedding of the quote/selection core of the `swapperrr` repository
(`src/quotes/*.rs`, `src/discovery/pool_cache.rs`, `src/selection/mod.rs`).

Modelling conventions, used uniformly below:

* `u64` / `u128` values are `Nat` with explicit `% 2 ^ 64` (resp. bounds
  hypotheses) where the machine width matters.  Integer overflow of a plain
  Rust `+`/`-` is modelled as a panic (Rust debug semantics); `saturating_sub`
  is `Nat` subtraction, which already saturates at 0.
* `rust_decimal::Decimal` (96-bit mantissa, 28 significant digits) is modelled
  as exact rational arithmetic together with its overflow behaviour: an
  unchecked `Decimal` multiplication or addition whose exact result has
  magnitude at least `2 ^ 96` (above `Decimal::MAX`) panics, while the
  `checked_*` variants return `MathOverflow` on the same condition.  `to_u64`
  truncates toward zero and fails outside `[0, 2^64)`; division by a zero
  `Decimal` panics.  (The 28-digit quantisation of inexact quotients is not
  modelled; no claim here depends on it.)
* Every `f64` operation on the quote-amount paths (the minimum-output
  computation and the stable blend) is modelled by `fl`, the exact IEEE-754
  round-to-nearest-even map onto 53 significant bits: each conversion,
  subtraction, division, multiplication and addition rounds once.  Exponent
  overflow/underflow to infinities or subnormals is not modelled: all values
  arising here are far inside the normal range.  The `f64` arithmetic of the
  price-impact displays is modelled as exact rationals (no claim depends on
  its rounding).  A Rust `as u64` cast of a float truncates toward zero and
  saturates at the ends of the range.
* A Rust panic is the `.panic` outcome, a returned `SwapError` the `.error`
  outcome, success `.ok`.
-/

/-- Error taxonomy of `src/core/error.rs` restricted to the constructors the
quote path produces.  Payload strings are kept where a claim's statement
distinguishes them; `InsufficientLiquidity`'s numeric payload is dropped. -/
inductive SwapError where
  | invalidPoolState (msg : String)
  | invalidTokenMint (msg : String)
  | mathOverflow
  | insufficientLiquidity
deriving DecidableEq, Repr

/-- Result of running a Rust function that may panic (`.panic`) or return
`Result::Err` (`.error`). -/
inductive Outcome (α : Type) where
  | panic
  | error (e : SwapError)
  | ok (v : α)
deriving DecidableEq, Repr

/-- Model of `PoolType` from `src/core/types.rs`. -/
inductive PoolType where
  | amm
  | stable
  | clmm
  | standard
deriving DecidableEq, Repr

/-- Model of `PoolState` from `src/core/types.rs`.  Reserves and liquidity are `Nat`
(u64/u128 values), ticks are `Int` (i32). -/
inductive PoolState where
  | amm (reserveA reserveB : ℕ) (nonce : ℕ)
  | stable (reserves : List ℕ) (ampFactor : ℕ)
  | clmm (currentTick : ℤ) (tickSpacing : ℕ) (liquidity : ℕ) (feeTier : ℕ)
  | standard (reserveA reserveB : ℕ)
deriving DecidableEq, Repr

/-- The fields of `PoolInfo` the quote path and the selector read.  Mint
addresses are abstracted to `Nat`. -/
structure PoolInfo where
  poolType : PoolType
  tokenAMint : ℕ
  tokenBMint : ℕ
  tokenASymbol : String
  tokenBSymbol : String
  feeRate : ℚ
  poolState : PoolState
deriving DecidableEq, Repr

/-- Model of `QuoteRequest` from `src/core/types.rs`. -/
structure QuoteRequest where
  tokenIn : ℕ
  tokenOut : ℕ
  amountIn : ℕ
  slippageBps : ℕ
deriving DecidableEq, Repr

/-- The numeric fields of `QuoteResult` that the claims are about. -/
structure QuoteRes where
  amountOut : ℕ
  minAmountOut : ℕ
  fee : ℕ
  priceImpact : ℚ
deriving DecidableEq, Repr

/-- Rust `as u64` applied to a nonnegative-or-negative float/decimal value:
truncate toward zero and saturate into `[0, u64::MAX]`. -/
def castU64 (q : ℚ) : ℕ :=
  min (Int.toNat ⌊q⌋) (2 ^ 64 - 1)

/-- Round a rational to the nearest integer, ties to even: the IEEE-754
default rounding applied to the scaled significand. -/
def roundTiesEven (x : ℚ) : ℤ :=
  let n := ⌊x⌋
  let f := x - n
  if f < 1 / 2 then n
  else if 1 / 2 < f then n + 1
  else if n % 2 = 0 then n else n + 1

/-- The exact IEEE-754 binary64 rounding map: round to the nearest value with
53 significant bits, ties to even.  `Int.log 2 |q|` locates the binade, so
the unit in the last place is `2 ^ (Int.log 2 |q| - 52)`.  (Exponent
overflow/underflow is not modelled; every value on the modelled paths is far
inside the normal range.) -/
def fl (q : ℚ) : ℚ :=
  if q = 0 then 0
  else
    ((roundTiesEven (q / 2 ^ (Int.log 2 |q| - 52)) : ℚ)) * 2 ^ (Int.log 2 |q| - 52)

/-- Model of `AmmQuoteCalculator::calculate_min_output` (`amm_calculator.rs:89-93`);
the stable and CLMM quote paths inline the same two lines.  Every `f64` step
rounds via `fl`: `slippage_bps as f64` is exact (a `u16` is below `2^53`),
then `slippage_bps / 10000.0`, `1.0 - x`, the `u64 -> f64` conversion of
`amount_out` and the final product each round once; the `as u64` cast
truncates. -/
def calcMinOutput (amountOut slippageBps : ℕ) : ℕ :=
  let slippageMultiplier : ℚ := fl (1 - fl ((slippageBps : ℚ) / 10000))
  castU64 (fl (fl (amountOut : ℚ) * slippageMultiplier))

/-- Model of `AmmQuoteCalculator::calculate_output_amount` (`amm_calculator.rs:19-61`).
Decimal arithmetic is exact rationals with the 96-bit overflow modelled: the
unchecked multiplications `amount_in_dec * fee_multiplier` and
`reserve_out_dec * amount_in_with_fee` and the addition
`reserve_in_dec + amount_in_with_fee` panic when the exact result's magnitude
reaches `2 ^ 96` (above `Decimal::MAX`).  `fee_multiplier` is
`Decimal::from_f64(1.0 - fee_rate)`, modelled as the exact `1 - feeRate`
(the fee rates in scope are exactly representable); `to_u64` truncates and
fails outside the u64 range (`MathOverflow`). -/
def ammCalcOutputAmount (amountIn reserveIn reserveOut : ℕ) (feeRate : ℚ) :
    Outcome ℕ :=
  if reserveIn = 0 ∨ reserveOut = 0 then
    .error (.invalidPoolState "Pool has zero reserves")
  else if amountIn = 0 then .ok 0
  else
    let amountInWithFee : ℚ := (amountIn : ℚ) * (1 - feeRate)
    if (2 ^ 96 : ℚ) ≤ |amountInWithFee| then .panic
    else
      let numerator : ℚ := (reserveOut : ℚ) * amountInWithFee
      if (2 ^ 96 : ℚ) ≤ |numerator| then .panic
      else
        let denominator : ℚ := (reserveIn : ℚ) + amountInWithFee
        if (2 ^ 96 : ℚ) ≤ |denominator| then .panic
        else if denominator = 0 then .error .mathOverflow
        else
          let amountOut := numerator / denominator
          if amountOut < 0 ∨ (2 ^ 64 : ℚ) ≤ amountOut then .error .mathOverflow
          else .ok (Int.toNat ⌊amountOut⌋)

/-- Model of `StandardQuoteCalculator::calculate_output_amount`
(`standard_calculator.rs:20-62`); textually the same algorithm as the AMM
one (including the unchecked-Decimal overflow panics), kept as its own
definition because the source has two copies. -/
def standardCalcOutputAmount (amountIn reserveIn reserveOut : ℕ) (feeRate : ℚ) :
    Outcome ℕ :=
  if reserveIn = 0 ∨ reserveOut = 0 then
    .error (.invalidPoolState "Pool has zero reserves")
  else if amountIn = 0 then .ok 0
  else
    let amountInWithFee : ℚ := (amountIn : ℚ) * (1 - feeRate)
    if (2 ^ 96 : ℚ) ≤ |amountInWithFee| then .panic
    else
      let numerator : ℚ := (reserveOut : ℚ) * amountInWithFee
      if (2 ^ 96 : ℚ) ≤ |numerator| then .panic
      else
        let denominator : ℚ := (reserveIn : ℚ) + amountInWithFee
        if (2 ^ 96 : ℚ) ≤ |denominator| then .panic
        else if denominator = 0 then .error .mathOverflow
        else
          let amountOut := numerator / denominator
          if amountOut < 0 ∨ (2 ^ 64 : ℚ) ≤ amountOut then .error .mathOverflow
          else .ok (Int.toNat ⌊amountOut⌋)

/-- Model of `calculate_price_impact` shared by the AMM and Standard calculators
(`amm_calculator.rs:64-86`), f64 modelled as exact rationals. -/
def cpPriceImpact (amountIn amountOut reserveIn reserveOut : ℕ) : ℚ :=
  if amountIn = 0 ∨ amountOut = 0 ∨ reserveIn = 0 ∨ reserveOut = 0 then 0
  else
    let initialPrice : ℚ := (reserveOut : ℚ) / (reserveIn : ℚ)
    let executionPrice : ℚ := (amountOut : ℚ) / (amountIn : ℚ)
    (1 - executionPrice / initialPrice) * 100

/-- Model of `AmmQuoteCalculator::calculate_quote` (`amm_calculator.rs:98-167`):
state-variant check, input-side selection, output, impact, min-output, fee. -/
def ammCalculateQuote (pool : PoolInfo) (request : QuoteRequest) :
    Outcome QuoteRes :=
  match pool.poolState with
  | .amm reserveA reserveB _ =>
    let sides : Except SwapError (ℕ × ℕ) :=
      if pool.tokenAMint = request.tokenIn then .ok (reserveA, reserveB)
      else if pool.tokenBMint = request.tokenIn then .ok (reserveB, reserveA)
      else .error (.invalidTokenMint "Input token not found in pool")
    match sides with
    | .error e => .error e
    | .ok (reserveIn, reserveOut) =>
      match ammCalcOutputAmount request.amountIn reserveIn reserveOut pool.feeRate with
      | .panic => .panic
      | .error e => .error e
      | .ok amountOut =>
        .ok { amountOut := amountOut
              minAmountOut := calcMinOutput amountOut request.slippageBps
              fee := castU64 ((request.amountIn : ℚ) * pool.feeRate)
              priceImpact := cpPriceImpact request.amountIn amountOut reserveIn reserveOut }
  | _ => .error (.invalidPoolState "Expected AMM pool state")

/-- Model of `StandardQuoteCalculator::calculate_quote` (`standard_calculator.rs:92-`). -/
def standardCalculateQuote (pool : PoolInfo) (request : QuoteRequest) :
    Outcome QuoteRes :=
  match pool.poolState with
  | .standard reserveA reserveB =>
    let sides : Except SwapError (ℕ × ℕ) :=
      if pool.tokenAMint = request.tokenIn then .ok (reserveA, reserveB)
      else if pool.tokenBMint = request.tokenIn then .ok (reserveB, reserveA)
      else .error (.invalidTokenMint "Input token not found in pool")
    match sides with
    | .error e => .error e
    | .ok (reserveIn, reserveOut) =>
      match standardCalcOutputAmount request.amountIn reserveIn reserveOut pool.feeRate with
      | .panic => .panic
      | .error e => .error e
      | .ok amountOut =>
        .ok { amountOut := amountOut
              minAmountOut := calcMinOutput amountOut request.slippageBps
              fee := castU64 ((request.amountIn : ℚ) * pool.feeRate)
              priceImpact := cpPriceImpact request.amountIn amountOut reserveIn reserveOut }
  | _ => .error (.invalidPoolState "Expected Standard pool state")

/-! ## StableSwap calculator (`src/quotes/stable_calculator.rs`) -/

/-- One Newton step's body of `StableQuoteCalculator::calculate_d`
(`stable_calculator.rs:43-75`), run with explicit fuel (the source's 255
iteration cap).  Returns the converged `D`, or `MathOverflow` on a zero
denominator (the `checked_*` Decimal operations are exact here). -/
def calcDLoop (ann sumDec : ℚ) (reserves : List ℕ) (n : ℕ) : ℕ → ℚ → Except SwapError ℚ
  | 0, d => .ok d
  | fuel + 1, d =>
    let dProduct := reserves.foldl (fun acc r => acc * d / ((r : ℚ) * (n : ℚ))) d
    let numerator := d * (ann * sumDec + dProduct * (n : ℚ))
    let denominator := d * (ann - 1) + dProduct * ((n : ℚ) + 1)
    if denominator = 0 then .error .mathOverflow
    else
      let d' := numerator / denominator
      if |d' - d| < 1 / 10000 then .ok d' else calcDLoop ann sumDec reserves n fuel d'

/-- Model of `StableQuoteCalculator::calculate_d` (`stable_calculator.rs:20-78`):
the Newton-Raphson iteration for the StableSwap invariant `D`, 255
iterations, stopping when successive iterates differ by less than `1e-4`. -/
def calcD (reserves : List ℕ) (ampFactor : ℕ) : Except SwapError ℚ :=
  let n := reserves.length
  let sumReserves : ℕ := reserves.foldl (· + ·) 0
  if sumReserves = 0 then .ok 0
  else
    let nPowN := n ^ n
    if (2 ^ 64 - 1) / nPowN < ampFactor then .error .mathOverflow
    else
      let ann : ℚ := ((ampFactor * nPowN : ℕ) : ℚ)
      calcDLoop ann (sumReserves : ℚ) reserves n 255 (sumReserves : ℚ)

/-- Modelled from the spec: the StableSwap invariant for `n = 2` that, per the
spec (§4.4), a second Newton-Raphson pass is meant to solve for the post-trade
output reserve `y` holding `D` fixed - `ann*(x+y) + D = ann*D + D^3/(4*x*y)`
with `ann = A*n^n`.  The second pass is absent from the source, so only this
equation (which any converged solve would satisfy) is modelled. -/
def specStableInvariant (ann d x y : ℚ) : Prop :=
  ann * (x + y) + d = ann * d + d ^ 3 / (4 * x * y)

instance (ann d x y : ℚ) : Decidable (specStableInvariant ann d x y) := by
  unfold specStableInvariant; infer_instance

/-- The residual of `specStableInvariant` in `y`: zero exactly at a solution,
strictly increasing in `y` on `(0, ∞)` (see `specStableGap_strictMono`). -/
def specStableGap (ann d x y : ℚ) : ℚ :=
  ann * (x + y) + d - (ann * d + d ^ 3 / (4 * x * y))

/-- The net input of the stable path: `(amount_in as f64 * (1.0 - fee_rate))
as u64` (`stable_calculator.rs:97`).  Each f64 step rounds via `fl`: the
`u64 -> f64` conversion of `amount_in`, the subtraction `1.0 - fee_rate`
(the f64 `fee_rate` itself is exactly representable) and the product; the
`as u64` cast truncates and saturates. -/
def stableNetIn (amountIn : ℕ) (feeRate : ℚ) : ℕ :=
  castU64 (fl (fl (amountIn : ℚ) * fl (1 - feeRate)))

/-- The constant-product leg of the stable blend
(`stable_calculator.rs:104-107`): `k = r_in * r_out` in u128,
`new_reserve_out = k / (r_in + net)` truncated to u64, then
`saturating_sub`.  Callers guard `r_in + net < 2^64` and `r_in + net ≠ 0`. -/
def stableAmmLeg (reserveIn reserveOut net : ℕ) : ℕ :=
  reserveOut - (reserveIn * reserveOut / (reserveIn + net)) % 2 ^ 64

/-- The blend weight `amp_normalized = (amp_factor.min(10000) as f64) / 10000.0`
(`stable_calculator.rs:114`): the `as f64` conversion is exact (the clamped
value is at most `10000 < 2^53`), the division rounds via `fl`. -/
def stableBlendT (ampFactor : ℕ) : ℚ :=
  fl (((min ampFactor 10000 : ℕ) : ℚ) / 10000)

/-- Model of `StableQuoteCalculator::calculate_stable_output`
(`stable_calculator.rs:81-119`): a blend of the constant-product output and
the capped 1:1 output, weighted by `amp_normalized`; **not** an invariant
solve.  u64 overflow of `reserve_in + net` and the `reserve_out - 1`
subtraction with `reserve_out = 0` panic (debug semantics); `k / 0` panics in
both Rust profiles.  The blend line (`stable_calculator.rs:115-116`) rounds
each f64 step via `fl`: both `u64 -> f64` conversions, the subtraction
`1.0 - amp_normalized`, both products and the final sum. -/
def stableCalcOutput (amountIn reserveIn reserveOut : ℕ) (reserves : List ℕ)
    (ampFactor : ℕ) (feeRate : ℚ) : Outcome ℕ :=
  if reserves.length ≠ 2 then
    .error (.invalidPoolState "Stable pool must have exactly 2 tokens")
  else
    let net := stableNetIn amountIn feeRate
    if 2 ^ 64 ≤ reserveIn + net then .panic
    else if reserveIn + net = 0 then .panic
    else
      let amountOutAmm := stableAmmLeg reserveIn reserveOut net
      if reserveOut = 0 then .panic
      else
        let amountOutStable := min net (reserveOut - 1)
        let t := stableBlendT ampFactor
        let amountOut :=
          castU64 (fl (fl (fl (amountOutAmm : ℚ) * fl (1 - t)) +
            fl (fl (amountOutStable : ℚ) * t)))
        .ok (min amountOut (reserveOut - 1))

/-! ## CLMM calculator (`src/quotes/clmm_calculator.rs`) -/

/-- The binary-exponentiation loop of `ClmmQuoteCalculator::tick_to_price`
(`clmm_calculator.rs:29-35`), with explicit fuel; `fuel = t` always suffices
since `t` at least halves each step. -/
def clmmPowLoop : ℕ → ℚ → ℚ → ℕ → ℚ
  | 0, price, _, _ => price
  | fuel + 1, price, base, t =>
    if t = 0 then price
    else clmmPowLoop fuel (if t % 2 = 1 then price * base else price) (base * base) (t / 2)

/-- Model of `ClmmQuoteCalculator::tick_to_price` (`clmm_calculator.rs:19-46`):
`1.0001^|tick|` by binary exponentiation, inverted for negative ticks. -/
def tickToPrice (tick : ℤ) : Except SwapError ℚ :=
  let t := tick.natAbs
  let price := clmmPowLoop t 1 (10001 / 10000 : ℚ) t
  if tick < 0 then
    if price = 0 then .error .mathOverflow else .ok (1 / price)
  else .ok price

/-- The Newton iteration of `ClmmQuoteCalculator::tick_to_sqrt_price`
(`clmm_calculator.rs:53-59`): ten steps of `x ← (x + p/x)/2`, failing if an
iterate is zero. -/
def clmmNewtonSqrt (price : ℚ) : ℕ → ℚ → Except SwapError ℚ
  | 0, x => .ok x
  | fuel + 1, x =>
    if x = 0 then .error .mathOverflow
    else clmmNewtonSqrt price fuel ((x + price / x) / 2)

/-- Model of `ClmmQuoteCalculator::tick_to_sqrt_price` (`clmm_calculator.rs:49-62`). -/
def tickToSqrtPrice (tick : ℤ) : Except SwapError ℚ :=
  match tickToPrice tick with
  | .error e => .error e
  | .ok price => clmmNewtonSqrt price 10 (price / 2)

/-- Model of `ClmmQuoteCalculator::calculate_clmm_output` (`clmm_calculator.rs:65-122`),
single-tick approximation; Decimal and f64 modelled as exact rationals. -/
def clmmCalcOutput (amountIn : ℕ) (currentTick : ℤ) (liquidity : ℕ)
    (feeTier : ℕ) (isTokenAToB : Bool) : Except SwapError ℕ :=
  if liquidity = 0 then .error .insufficientLiquidity
  else
    let feeRate : ℚ := (feeTier : ℚ) / 1000000
    let amountInAfterFee := castU64 ((amountIn : ℚ) * (1 - feeRate))
    match tickToSqrtPrice currentTick with
    | .error e => .error e
    | .ok sqrtPriceCurrent =>
      let liquidityDec : ℚ := (liquidity : ℚ)
      let amountInDec : ℚ := (amountInAfterFee : ℚ)
      let amountOutDec : Except SwapError ℚ :=
        if isTokenAToB then
          let newSqrtPrice := sqrtPriceCurrent - amountInDec / liquidityDec
          if newSqrtPrice ≤ 0 then .error .insufficientLiquidity
          else .ok |liquidityDec * (1 / newSqrtPrice - 1 / sqrtPriceCurrent)|
        else
          let newSqrtPrice := sqrtPriceCurrent + amountInDec / liquidityDec
          .ok (liquidityDec * (newSqrtPrice - sqrtPriceCurrent))
      match amountOutDec with
      | .error e => .error e
      | .ok q =>
        if q < 0 ∨ (2 ^ 64 : ℚ) ≤ q then .error .mathOverflow
        else .ok (Int.toNat ⌊q⌋)

/-- Model of `ClmmQuoteCalculator::calculate_price_impact` (`clmm_calculator.rs:125-144`).
`Decimal::from(amount_out) / Decimal::from(amount_in)` panics when
`amount_in = 0` (rust_decimal division by zero), hence the `Outcome`. -/
def clmmQuotePriceImpact (amountIn amountOut : ℕ) (currentTick : ℤ) :
    Outcome ℚ :=
  match tickToPrice currentTick with
  | .error e => .error e
  | .ok currentPrice =>
    if amountIn = 0 then .panic
    else
      let executionPrice : ℚ := (amountOut : ℚ) / (amountIn : ℚ)
      if currentPrice = 0 then .panic
      else .ok (|(currentPrice - executionPrice) / currentPrice| * 100)

/-- Model of `ClmmQuoteCalculator::calculate_quote` (`clmm_calculator.rs:149-217`). -/
def clmmCalculateQuote (pool : PoolInfo) (request : QuoteRequest) :
    Outcome QuoteRes :=
  match pool.poolState with
  | .clmm currentTick _ liquidity feeTier =>
    let isTokenAToB := pool.tokenAMint = request.tokenIn
    if ¬isTokenAToB ∧ pool.tokenBMint ≠ request.tokenIn then
      .error (.invalidTokenMint "Input token not found in pool")
    else
      match clmmCalcOutput request.amountIn currentTick liquidity feeTier isTokenAToB with
      | .error e => .error e
      | .ok amountOut =>
        match clmmQuotePriceImpact request.amountIn amountOut currentTick with
        | .panic => .panic
        | .error e => .error e
        | .ok priceImpact =>
          let feeRate : ℚ := (feeTier : ℚ) / 1000000
          .ok { amountOut := amountOut
                minAmountOut := calcMinOutput amountOut request.slippageBps
                fee := castU64 ((request.amountIn : ℚ) * feeRate)
                priceImpact := priceImpact }
  | _ => .error (.invalidPoolState "Expected CLMM pool state")

/-! ## Pool cache (`src/discovery/pool_cache.rs`)

`Instant::now()` is injected as an explicit `now : ℕ`; the `DashMap` is an
association list kept duplicate-free by erase-then-insert.  The cached
`Vec<PoolInfo>` is an opaque value of a type parameter. -/

/-- A cache entry: the cached value and its absolute expiry instant
(`CacheEntry` in `pool_cache.rs:8-12`). -/
structure CacheEntry (α : Type) where
  pools : α
  expiresAt : ℕ
deriving DecidableEq, Repr

/-- The cache map: key is the (ordered) token pair. -/
def PoolCacheMap (α : Type) : Type := List ((ℕ × ℕ) × CacheEntry α)

/-- Association-list lookup (the `DashMap::get`). -/
def cacheLookup {α : Type} (k : ℕ × ℕ) : PoolCacheMap α → Option (CacheEntry α)
  | [] => none
  | (k', e) :: rest => if k' = k then some e else cacheLookup k rest

/-- Remove every binding of a key (the `DashMap::remove`; a `DashMap` holds at
most one binding per key, which erase-then-insert preserves). -/
def cacheErase {α : Type} (k : ℕ × ℕ) : PoolCacheMap α → PoolCacheMap α
  | [] => []
  | (k', e) :: rest =>
    if k' = k then cacheErase k rest else (k', e) :: cacheErase k rest

/-- Model of `DashMap::insert`: overwrite the key's binding. -/
def cacheInsert {α : Type} (k : ℕ × ℕ) (e : CacheEntry α) (m : PoolCacheMap α) :
    PoolCacheMap α :=
  (k, e) :: cacheErase k m

/-- Model of `PoolCache::set` (`pool_cache.rs:49-58`): store the entry, with expiry
`now + ttl`, under both key orderings. -/
def cacheSet {α : Type} (now ttl : ℕ) (key : ℕ × ℕ) (pools : α)
    (m : PoolCacheMap α) : PoolCacheMap α :=
  let entry : CacheEntry α := { pools := pools, expiresAt := now + ttl }
  cacheInsert (key.2, key.1) entry (cacheInsert key entry m)

/-- The loop of `PoolCache::get` (`pool_cache.rs:33-43`) over the candidate
key orderings: return a live entry, evict an expired one and continue. -/
def cacheGetLoop {α : Type} (now : ℕ) :
    List (ℕ × ℕ) → PoolCacheMap α → Option α × PoolCacheMap α
  | [], m => (none, m)
  | k :: rest, m =>
    match cacheLookup k m with
    | some entry =>
      if now < entry.expiresAt then (some entry.pools, m)
      else cacheGetLoop now rest (cacheErase k m)
    | none => cacheGetLoop now rest m

/-- Model of `PoolCache::get` (`pool_cache.rs:29-46`): try the key, then its swap. -/
def cacheGet {α : Type} (now : ℕ) (key : ℕ × ℕ) (m : PoolCacheMap α) :
    Option α × PoolCacheMap α :=
  cacheGetLoop now [key, (key.2, key.1)] m

/-! ## Pool selector (`src/selection/mod.rs`) -/

/-- The recognized stablecoin symbols (`selection/mod.rs:144`). -/
def stableSymbols : List String :=
  ["USDC", "USDT", "DAI", "BUSD", "TUSD", "USDP"]

/-- Model of `PoolSelector::is_stable_pair` (`selection/mod.rs:143-148`). -/
def isStablePair (pool : PoolInfo) : Bool :=
  decide (pool.tokenASymbol ∈ stableSymbols) &&
    decide (pool.tokenBSymbol ∈ stableSymbols)

/-- A quote as the selector sees it: the output amount together with the pool
fields its tie-break bonus reads. -/
structure SelQuote where
  amountOut : ℕ
  pool : PoolInfo
deriving DecidableEq, Repr

/-- The tie-break bonus of `PoolSelector::select_best_quote`
(`selection/mod.rs:91-102`). -/
def selTypeBonus (q : SelQuote) : ℕ :=
  match q.pool.poolType with
  | .stable => if isStablePair q.pool then 1000 else 0
  | .clmm => 100
  | _ => 0

/-- The ranking key `output_score + type_bonus` (`selection/mod.rs:104`) as
the unbounded sum; whether it fits in the `u64` of the source is checked at
the `max_by_key` call (`maxBySelKey`), which evaluates the key closure on
every element. -/
def selKey (q : SelQuote) : ℕ :=
  q.amountOut + selTypeBonus q

/-- One comparison step of `Iterator::max_by_key`: keep the later element
when its key is at least the current maximum's (Rust returns the last
maximal element on ties). -/
def selStep (acc : Option SelQuote) (q : SelQuote) : Option SelQuote :=
  match acc with
  | none => some q
  | some m => if selKey m ≤ selKey q then some q else some m

/-- Model of the `max_by_key` call of `select_best_quote`
(`selection/mod.rs:84-105`): `max_by_key` evaluates the key closure on every
element, and the closure's `u64` addition `output_score + type_bonus` panics
on overflow (debug semantics); otherwise the maximum by the key, the last
one on ties. -/
def maxBySelKey (quotes : List SelQuote) : Outcome (Option SelQuote) :=
  if ∀ q ∈ quotes, selKey q < 2 ^ 64 then .ok (quotes.foldl selStep none)
  else .panic

/-- Model of `PoolSelector::get_quotes_from_pools` (`selection/mod.rs:53-80`): keep the
successful quotes, drop the failures.  The per-pool quote engine is passed in
as a function, standing for `QuoteEngine::calculate_quote`'s dispatch. -/
def getQuotesFromPools (pools : List PoolInfo)
    (quoteEngine : PoolInfo → Except SwapError SelQuote) : List SelQuote :=
  pools.filterMap (fun p => (quoteEngine p).toOption)

/-- Model of `PoolSelector::select_best_pool` (`selection/mod.rs:22-50`): empty
discovery short-circuits to `none`; otherwise the best surviving quote by
`selKey` (or the key-overflow panic of `max_by_key`). -/
def selectBestPool (pools : List PoolInfo)
    (quoteEngine : PoolInfo → Except SwapError SelQuote) : Outcome (Option SelQuote) :=
  if pools = [] then .ok none
  else maxBySelKey (getQuotesFromPools pools quoteEngine)

/-! ## Helper lemmas -/

/-- The Standard calculator's output function is the AMM one verbatim
(the source keeps two textual copies of the same algorithm). -/
theorem standardCalcOutputAmount_eq_amm :
    standardCalcOutputAmount = ammCalcOutputAmount := rfl

theorem castU64_natCast_of_le {n : ℕ} (h : n ≤ 2 ^ 64 - 1) :
    castU64 (n : ℚ) = n := by
  simp only [castU64, Int.floor_natCast, Int.toNat_natCast]
  exact min_eq_left h

theorem castU64_mono {q q' : ℚ} (h : q ≤ q') : castU64 q ≤ castU64 q' := by
  unfold castU64
  exact min_le_min (Int.toNat_le_toNat (Int.floor_le_floor h)) le_rfl

/-- Integers are fixed points of round-to-nearest-even. -/
theorem roundTiesEven_intCast (m : ℤ) : roundTiesEven (m : ℚ) = m := by
  unfold roundTiesEven
  rw [Int.floor_intCast]
  norm_num

theorem fl_zero : fl 0 = 0 := by
  unfold fl
  rw [if_pos rfl]

/-- Characterise `Int.log 2` by two-sided power bounds. -/
theorem log2_eq_of_bounds {q : ℚ} {e : ℤ} (h1 : 2 ^ e ≤ q) (h2 : q < 2 ^ (e + 1)) :
    Int.log 2 q = e := by
  have hq : 0 < q := lt_of_lt_of_le (by positivity) h1
  have hb : 1 < 2 := one_lt_two
  have hcast : ((2 : ℕ) : ℚ) = (2 : ℚ) := by norm_num
  have hle : e ≤ Int.log 2 q := by
    rw [← Int.zpow_le_iff_le_log hb hq, hcast]
    exact h1
  have hlt : Int.log 2 q < e + 1 := by
    rw [← Int.lt_zpow_iff_log_lt hb hq, hcast]
    exact h2
  omega

/-- Evaluation rule for `fl` on a positive value with a known binade. -/
theorem fl_eq_of_bounds {q : ℚ} {e : ℤ} (h1 : 2 ^ e ≤ q) (h2 : q < 2 ^ (e + 1)) :
    fl q = ((roundTiesEven (q / 2 ^ (e - 52)) : ℚ)) * 2 ^ (e - 52) := by
  have hq : 0 < q := lt_of_lt_of_le (by positivity) h1
  unfold fl
  rw [if_neg hq.ne', abs_of_pos hq, log2_eq_of_bounds h1 h2]

/-- A value that sits on the 53-bit grid of its binade is a fixed point of
`fl`. -/
theorem fl_fix_of_bounds {q : ℚ} {e : ℤ} (m : ℤ) (h1 : 2 ^ e ≤ q)
    (h2 : q < 2 ^ (e + 1)) (hm : q = (m : ℚ) * 2 ^ (e - 52)) :
    fl q = q := by
  rw [fl_eq_of_bounds h1 h2]
  have hpow : ((2 : ℚ) ^ (e - 52)) ≠ 0 := by positivity
  have hdiv : q / 2 ^ (e - 52) = (m : ℚ) := by
    rw [hm, mul_div_assoc, div_self hpow, mul_one]
  rw [hdiv, roundTiesEven_intCast, ← hm]

theorem fl_one : fl 1 = 1 := by
  refine fl_fix_of_bounds (q := 1) (e := 0) (2 ^ 52) (by norm_num) (by norm_num) ?_
  push_cast
  norm_num

theorem fl_half : fl (1 / 2) = 1 / 2 := by
  refine fl_fix_of_bounds (q := 1 / 2) (e := -1) (2 ^ 52) (by norm_num) (by norm_num) ?_
  push_cast
  norm_num

/-- Naturals below `2 ^ 53` convert to `f64` exactly. -/
theorem fl_natCast_of_lt (n : ℕ) (h : n < 2 ^ 53) : fl (n : ℚ) = n := by
  rcases Nat.eq_zero_or_pos n with rfl | hn
  · rw [Nat.cast_zero, fl_zero]
  · have hq : (0 : ℚ) < n := by exact_mod_cast hn
    have hcast2 : ((2 : ℕ) : ℚ) = (2 : ℚ) := by norm_num
    set e := Int.log 2 (n : ℚ) with he
    have h1 : (2 : ℚ) ^ e ≤ n := by
      have h := Int.zpow_log_le_self (b := 2) one_lt_two hq
      rwa [hcast2] at h
    have h2 : (n : ℚ) < 2 ^ (e + 1) := by
      have h := Int.lt_zpow_succ_log_self (b := 2) one_lt_two (n : ℚ)
      rwa [hcast2] at h
    have he0 : 0 ≤ e := by
      rw [he]
      refine (Int.zpow_le_iff_le_log one_lt_two hq).mp ?_
      rw [hcast2]
      norm_num
      exact_mod_cast hn
    have he52 : e ≤ 52 := by
      have h53 : e < 53 := by
        rw [he]
        refine (Int.lt_zpow_iff_log_lt one_lt_two hq).mp ?_
        rw [hcast2]
        norm_num
        exact_mod_cast h
      omega
    refine fl_fix_of_bounds ((n : ℤ) * 2 ^ (52 - e).toNat) h1 h2 ?_
    have hk : ((52 - e).toNat : ℤ) = 52 - e := Int.toNat_of_nonneg (by omega)
    push_cast
    rw [mul_assoc, ← zpow_natCast (2 : ℚ) (52 - e).toNat]
    rw [show (((52 - e).toNat : ℕ) : ℤ) = 52 - e from hk]
    rw [← zpow_add₀ (by norm_num : (2 : ℚ) ≠ 0)]
    norm_num

/-- Convenience form of `fl_natCast_of_lt` against a `ℚ` numeral. -/
theorem fl_fix_of_natCast (n : ℕ) (q : ℚ) (hq : (n : ℚ) = q) (h : n < 2 ^ 53) :
    fl q = q := by
  rw [← hq]
  exact fl_natCast_of_lt n h

/-- `2 ^ 64` (the rounded image of the top `u64` values) is itself a fixed
point of `fl`. -/
theorem fl_two_pow_64 : fl ((2 : ℚ) ^ 64) = (2 : ℚ) ^ 64 := by
  refine fl_fix_of_bounds (q := (2 : ℚ) ^ 64) (e := 64) (2 ^ 52) (by norm_num)
    (by norm_num) ?_
  push_cast
  norm_num

/-- `u64::MAX` rounds up to `2 ^ 64` under `u64 -> f64` conversion. -/
theorem fl_u64max : fl ((2 ^ 64 - 1 : ℕ) : ℚ) = (2 : ℚ) ^ 64 := by
  have h1 : (2 : ℚ) ^ (63 : ℤ) ≤ ((2 ^ 64 - 1 : ℕ) : ℚ) := by
    push_cast
    norm_num
  have h2 : ((2 ^ 64 - 1 : ℕ) : ℚ) < 2 ^ ((63 : ℤ) + 1) := by
    push_cast
    norm_num
  rw [fl_eq_of_bounds h1 h2]
  rw [show (63 : ℤ) - 52 = (11 : ℤ) by norm_num]
  rw [show roundTiesEven (((2 ^ 64 - 1 : ℕ) : ℚ) / 2 ^ (11 : ℤ)) = 2 ^ 53 by
    unfold roundTiesEven
    push_cast
    norm_num]
  push_cast
  norm_num

/-- `u64::MAX - 1` also rounds up to `2 ^ 64`. -/
theorem fl_u64max_sub_one : fl ((2 ^ 64 - 2 : ℕ) : ℚ) = (2 : ℚ) ^ 64 := by
  have h1 : (2 : ℚ) ^ (63 : ℤ) ≤ ((2 ^ 64 - 2 : ℕ) : ℚ) := by
    push_cast
    norm_num
  have h2 : ((2 ^ 64 - 2 : ℕ) : ℚ) < 2 ^ ((63 : ℤ) + 1) := by
    push_cast
    norm_num
  rw [fl_eq_of_bounds h1 h2]
  rw [show (63 : ℤ) - 52 = (11 : ℤ) by norm_num]
  rw [show roundTiesEven (((2 ^ 64 - 2 : ℕ) : ℚ) / 2 ^ (11 : ℤ)) = 2 ^ 53 by
    unfold roundTiesEven
    push_cast
    norm_num]
  push_cast
  norm_num

/-- `2 ^ 53 + 1` is not representable in 53 bits: it rounds down (tie to
even) to `2 ^ 53`. -/
theorem fl_two_pow_53_add_one : fl ((2 ^ 53 + 1 : ℕ) : ℚ) = (2 : ℚ) ^ 53 := by
  have h1 : (2 : ℚ) ^ (53 : ℤ) ≤ ((2 ^ 53 + 1 : ℕ) : ℚ) := by
    push_cast
    norm_num
  have h2 : ((2 ^ 53 + 1 : ℕ) : ℚ) < 2 ^ ((53 : ℤ) + 1) := by
    push_cast
    norm_num
  rw [fl_eq_of_bounds h1 h2]
  rw [show (53 : ℤ) - 52 = (1 : ℤ) by norm_num]
  rw [show roundTiesEven (((2 ^ 53 + 1 : ℕ) : ℚ) / 2 ^ (1 : ℤ)) = 2 ^ 52 by
    unfold roundTiesEven
    push_cast
    norm_num]
  push_cast
  norm_num

/-- `fl (9999 / 10000)` = `0.99990000000000001101...`, one ulp above the
exact value. -/
theorem fl_bps_9999 : fl (1 - fl (((9999 : ℕ) : ℚ) / 10000)) = 900719925474 / 2 ^ 53 := by
  rw [show ((9999 : ℕ) : ℚ) = (9999 : ℚ) by norm_num]
  have hinner : fl ((9999 : ℚ) / 10000) = 9006298534815518 / 2 ^ 53 := by
    have h1 : (2 : ℚ) ^ (-1 : ℤ) ≤ (9999 : ℚ) / 10000 := by norm_num
    have h2 : (9999 : ℚ) / 10000 < 2 ^ ((-1 : ℤ) + 1) := by norm_num
    rw [fl_eq_of_bounds h1 h2]
    rw [show (-1 : ℤ) - 52 = (-53 : ℤ) by norm_num]
    rw [show roundTiesEven ((9999 : ℚ) / 10000 / 2 ^ (-53 : ℤ)) = 9006298534815518 by
      unfold roundTiesEven
      norm_num]
    norm_num
  rw [hinner]
  rw [show (1 : ℚ) - 9006298534815518 / 2 ^ 53 = 900719925474 / 2 ^ 53 by norm_num]
  refine fl_fix_of_bounds (q := (900719925474 : ℚ) / 2 ^ 53) (e := -14)
    (900719925474 * 2 ^ 13) (by norm_num) (by norm_num) ?_
  push_cast
  norm_num

/-- The spec's constant-product output formula (§4.4):
`floor(r_out * amount_in_net / (r_in + amount_in_net))` with
`amount_in_net = amount_in * (1 - fee_rate)`.  Stated from the spec, to be
compared with the source-derived calculators. -/
def cpOutFormula (amountIn reserveIn reserveOut : ℕ) (feeRate : ℚ) : ℕ :=
  ⌊(reserveOut : ℚ) * ((amountIn : ℚ) * (1 - feeRate)) /
      ((reserveIn : ℚ) + (amountIn : ℚ) * (1 - feeRate))⌋₊

/-- Whenever the constant-product calculator does return `Ok`, the value is
the spec's floored formula: the guards only ever cut the success path, they
never change the returned number. -/
theorem ammCalcOutputAmount_ok_imp {a ri ro : ℕ} {fee : ℚ} {v : ℕ}
    (h : ammCalcOutputAmount a ri ro fee = .ok v) :
    v = cpOutFormula a ri ro fee := by
  simp only [ammCalcOutputAmount] at h
  unfold cpOutFormula
  split_ifs at h with h1 h2 h3 h4 h5 h6 h7
  · obtain rfl := (Outcome.ok.inj h).symm
    simp [h2]
  · obtain rfl := (Outcome.ok.inj h).symm
    rw [Int.floor_toNat]


/-- The rational constant-product output `r_out * x / (r_in + x)` is monotone
in the net input `x ≥ 0`. -/
theorem cpFormulaQ_mono (ri ro : ℕ) (hri : 0 < ri) {x y : ℚ} (hx : 0 ≤ x)
    (hxy : x ≤ y) :
    (ro : ℚ) * x / ((ri : ℚ) + x) ≤ (ro : ℚ) * y / ((ri : ℚ) + y) := by
  have hriQ : (0 : ℚ) < ri := by exact_mod_cast hri
  rw [div_le_div_iff₀ (by linarith) (by linarith)]
  nlinarith [mul_nonneg (mul_nonneg (Nat.cast_nonneg (α := ℚ) ro) hriQ.le)
    (sub_nonneg.mpr hxy)]

theorem cpOutFormula_mono_amount {ri ro a b : ℕ} (fee : ℚ) (hri : 0 < ri)
    (hab : a ≤ b) (hf1 : fee ≤ 1) :
    cpOutFormula a ri ro fee ≤ cpOutFormula b ri ro fee := by
  unfold cpOutFormula
  refine Nat.floor_mono (cpFormulaQ_mono ri ro hri ?_ ?_)
  · exact mul_nonneg (Nat.cast_nonneg a) (by linarith)
  · exact mul_le_mul_of_nonneg_right (by exact_mod_cast hab) (by linarith)

theorem cpOutFormula_anti_fee {ri ro a : ℕ} {fee fee' : ℚ} (hri : 0 < ri)
    (hff : fee ≤ fee') (hf1 : fee' ≤ 1) :
    cpOutFormula a ri ro fee' ≤ cpOutFormula a ri ro fee := by
  unfold cpOutFormula
  refine Nat.floor_mono (cpFormulaQ_mono ri ro hri ?_ ?_)
  · exact mul_nonneg (Nat.cast_nonneg a) (by linarith)
  · exact mul_le_mul_of_nonneg_left (by linarith) (Nat.cast_nonneg a)

/-- C6 counterexample: on reserves `(2, 2)` with zero fee the outputs at
`amount_in = 2` and `amount_in = 3` are both `1` (not strictly increasing),
and at `amount_in = 1` the outputs at `fee_rate = 0` and `fee_rate = 0.5` are
both `0` (not strictly decreasing): integer flooring collapses them. -/
theorem cp_strict_monotone_counterexample :
    ammCalcOutputAmount 2 2 2 0 = .ok 1 ∧ ammCalcOutputAmount 3 2 2 0 = .ok 1 ∧
    ammCalcOutputAmount 1 2 2 0 = .ok 0 ∧
    ammCalcOutputAmount 1 2 2 (1 / 2) = .ok 0 := by
  refine ⟨?_, ?_, ?_, ?_⟩ <;> norm_num [ammCalcOutputAmount, abs]

/-- C6 amended: for every constant-product (AMM or Standard) pool with fixed
nonzero reserves, the quoted `amount_out` is non-decreasing in `amount_in`
and non-increasing in `fee_rate`; strictness fails only because the exact
rational output is floored to integer token units. -/
theorem cp_monotone_amended (ri ro : ℕ) (hri : 0 < ri) (hro : 0 < ro)
    (hro64 : ro < 2 ^ 64) :
    (∀ a b : ℕ, ∀ fee : ℚ, a ≤ b → 0 ≤ fee → fee ≤ 1 → ∀ va vb,
      ammCalcOutputAmount a ri ro fee = .ok va →
        ammCalcOutputAmount b ri ro fee = .ok vb → va ≤ vb) ∧
    (∀ a : ℕ, ∀ fee fee' : ℚ, 0 ≤ fee → fee ≤ fee' → fee' ≤ 1 → ∀ v v',
      ammCalcOutputAmount a ri ro fee = .ok v →
        ammCalcOutputAmount a ri ro fee' = .ok v' → v' ≤ v) ∧
    (∀ a b : ℕ, ∀ fee : ℚ, a ≤ b → 0 ≤ fee → fee ≤ 1 → ∀ va vb,
      standardCalcOutputAmount a ri ro fee = .ok va →
        standardCalcOutputAmount b ri ro fee = .ok vb → va ≤ vb) ∧
    (∀ a : ℕ, ∀ fee fee' : ℚ, 0 ≤ fee → fee ≤ fee' → fee' ≤ 1 → ∀ v v',
      standardCalcOutputAmount a ri ro fee = .ok v →
        standardCalcOutputAmount a ri ro fee' = .ok v' → v' ≤ v) := by
  have core1 : ∀ a b : ℕ, ∀ fee : ℚ, a ≤ b → 0 ≤ fee → fee ≤ 1 → ∀ va vb,
      ammCalcOutputAmount a ri ro fee = .ok va →
        ammCalcOutputAmount b ri ro fee = .ok vb → va ≤ vb := by
    intro a b fee hab hf0 hf1 va vb hva hvb
    obtain rfl := ammCalcOutputAmount_ok_imp hva
    obtain rfl := ammCalcOutputAmount_ok_imp hvb
    exact cpOutFormula_mono_amount fee hri hab hf1
  have core2 : ∀ a : ℕ, ∀ fee fee' : ℚ, 0 ≤ fee → fee ≤ fee' → fee' ≤ 1 → ∀ v v',
      ammCalcOutputAmount a ri ro fee = .ok v →
        ammCalcOutputAmount a ri ro fee' = .ok v' → v' ≤ v := by
    intro a fee fee' hf0 hff hf1 v v' hv hv'
    obtain rfl := ammCalcOutputAmount_ok_imp hv
    obtain rfl := ammCalcOutputAmount_ok_imp hv'
    exact cpOutFormula_anti_fee hri hff hf1
  exact ⟨core1, core2,
    by rw [standardCalcOutputAmount_eq_amm]; exact core1,
    by rw [standardCalcOutputAmount_eq_amm]; exact core2⟩

/-- Witness for `cp_monotone_amended`: on reserves `(1_000_000, 1_000_000)`
with zero fee, `amount_in = 1000` yields `999` and `amount_in = 2000` yields
`1996`, and the theorem orders them. -/
theorem cp_monotone_amended_witness :
    ammCalcOutputAmount 1000 1000000 1000000 0 = .ok 999 ∧
    ammCalcOutputAmount 2000 1000000 1000000 0 = .ok 1996 ∧ (999 : ℕ) ≤ 1996 :=
  ⟨by norm_num [ammCalcOutputAmount, abs]; try decide
    , by norm_num [ammCalcOutputAmount, abs]; try decide
    ,
    (cp_monotone_amended 1000000 1000000 (by norm_num) (by norm_num)
        (by norm_num)).1 1000 2000 0 (by norm_num) le_rfl (by norm_num) 999 1996
      (by norm_num [ammCalcOutputAmount, abs]; try decide)
      (by norm_num [ammCalcOutputAmount, abs]; try decide)⟩

/-- C9: for every constant-product (AMM or Standard) pool in which at least
one reserve is zero and `token_in` matches a pool side, `calculate_quote`
returns `InvalidPoolState` for every `amount_in` (the zero-reserve guard runs
before the zero-amount early return; no panic path exists here). -/
theorem cp_zero_reserve_invalid_state
    (ma mb ra rb nonce : ℕ) (sa sb : String) (fee : ℚ) (req : QuoteRequest)
    (hz : ra = 0 ∨ rb = 0) (hside : req.tokenIn = ma ∨ req.tokenIn = mb) :
    ammCalculateQuote ⟨.amm, ma, mb, sa, sb, fee, .amm ra rb nonce⟩ req =
      .error (.invalidPoolState "Pool has zero reserves") ∧
    standardCalculateQuote ⟨.standard, ma, mb, sa, sb, fee, .standard ra rb⟩ req =
      .error (.invalidPoolState "Pool has zero reserves") := by
  obtain ⟨tin, tout, amt, bps⟩ := req
  by_cases h1 : ma = tin
  · subst h1
    constructor
    · simp only [ammCalculateQuote, if_pos rfl, if_true,
        ammCalcOutputAmount, if_pos hz]
    · simp only [standardCalculateQuote, standardCalcOutputAmount_eq_amm,
        if_pos rfl, if_true, ammCalcOutputAmount, if_pos hz]
  · have h2 : mb = tin := by
      rcases hside with h | h
      · exact absurd h.symm h1
      · exact h.symm
    subst h2
    constructor
    · simp only [ammCalculateQuote, if_neg h1, if_pos rfl, if_true,
        ammCalcOutputAmount, if_pos (Or.symm hz)]
    · simp only [standardCalculateQuote, standardCalcOutputAmount_eq_amm,
        if_neg h1, if_pos rfl, if_true, ammCalcOutputAmount, if_pos (Or.symm hz)]

/-- Witness for `cp_zero_reserve_invalid_state`: a pool with a drained first
vault, queried from its first side. -/
theorem cp_zero_reserve_invalid_state_witness :
    ammCalculateQuote ⟨.amm, 1, 2, "SOL", "USDC", 25 / 10000, .amm 0 1000000 7⟩
        ⟨1, 2, 1000, 50⟩ = .error (.invalidPoolState "Pool has zero reserves") ∧
    standardCalculateQuote ⟨.standard, 1, 2, "SOL", "USDC", 25 / 10000, .standard 0 1000000⟩
        ⟨1, 2, 1000, 50⟩ = .error (.invalidPoolState "Pool has zero reserves") :=
  cp_zero_reserve_invalid_state 1 2 0 1000000 7 "SOL" "USDC" (25 / 10000)
    ⟨1, 2, 1000, 50⟩ (Or.inl rfl) (Or.inl rfl)

/-- C4 counterexample.  (i) An AMM quote can output `2^53 + 1` (reserves
`(1, 2^54 + 2)`, zero fee, `amount_in = 1`), and with `slippage_bps = 0` the
minimum-output computation returns `2^53`, not `amount_out`: the `u64 -> f64`
conversion rounds `2^53 + 1` to `2^53` before the multiply.  (ii) Even below
`2^53` the result is not the exact floor: at `amount_out = 10000`,
`slippage_bps = 9999` the rounded multiplier `fl(1 - fl(9999/10000))` lies
one ulp above `0.0001`, the rounded product is `0.99999989...`, and the cast
returns `0` where the exact floor is `1`. -/
theorem min_output_exact_floor_counterexample :
    ammCalcOutputAmount 1 1 (2 ^ 54 + 2) 0 = .ok (2 ^ 53 + 1) ∧
    calcMinOutput (2 ^ 53 + 1) 0 = 2 ^ 53 ∧ (2 : ℕ) ^ 53 ≠ 2 ^ 53 + 1 ∧
    calcMinOutput 10000 9999 = 0 ∧ (10000 * (10000 - 9999) / 10000 : ℕ) = 1 := by
  refine ⟨?_, ?_, by norm_num, ?_, by norm_num⟩
  · norm_num [ammCalcOutputAmount, abs]
    try decide
  · simp only [calcMinOutput]
    rw [show ((0 : ℕ) : ℚ) / 10000 = 0 by norm_num, fl_zero,
      show (1 : ℚ) - 0 = 1 by norm_num, fl_one, mul_one, fl_two_pow_53_add_one,
      fl_fix_of_bounds (q := (2 : ℚ) ^ 53) (e := 53) (2 ^ 52) (by norm_num)
        (by norm_num) (by push_cast; norm_num)]
    unfold castU64
    rw [show ⌊(2 : ℚ) ^ 53⌋ = 2 ^ 53 by norm_num]
    simp
  · simp only [calcMinOutput]
    rw [fl_bps_9999,
      fl_natCast_of_lt 10000 (by norm_num),
      show ((10000 : ℕ) : ℚ) * (900719925474 / 2 ^ 53) = 9007199254740000 / 2 ^ 53 by
        push_cast
        norm_num,
      fl_fix_of_bounds (q := (9007199254740000 : ℚ) / 2 ^ 53) (e := -1)
        9007199254740000 (by norm_num) (by norm_num) (by push_cast; norm_num)]
    unfold castU64
    rw [show ⌊(9007199254740000 : ℚ) / 2 ^ 53⌋ = 0 by norm_num]
    simp

/-- C4 amended: `min_amount_out` is computed entirely in `f64`, so it equals
the exact `floor(amount_out * (1 - slippage_bps/10000))` only up to the
round-to-nearest-even error of the multiplier and the product.  Where no
rounding can occur it is exact: for `amount_out < 2^53`, `slippage_bps = 0`
returns `amount_out` itself (multiplier exactly `1.0`) and
`slippage_bps = 10000` returns `0` (multiplier exactly `0.0`). -/
theorem min_output_floor_amended (n : ℕ) (hn : n < 2 ^ 53) :
    calcMinOutput n 0 = n ∧ calcMinOutput n 10000 = 0 := by
  have h64 : n ≤ 2 ^ 64 - 1 := by
    have h1 : (2 : ℕ) ^ 53 ≤ 2 ^ 64 - 1 := by norm_num
    omega
  constructor
  · simp only [calcMinOutput]
    rw [show ((0 : ℕ) : ℚ) / 10000 = 0 by norm_num, fl_zero,
      show (1 : ℚ) - 0 = 1 by norm_num, fl_one, mul_one, fl_natCast_of_lt n hn,
      fl_natCast_of_lt n hn]
    exact castU64_natCast_of_le h64
  · simp only [calcMinOutput]
    rw [show ((10000 : ℕ) : ℚ) / 10000 = 1 by norm_num, fl_one,
      show (1 : ℚ) - 1 = 0 by norm_num, fl_zero, mul_zero, fl_zero]
    unfold castU64
    simp

/-- Witness for `min_output_floor_amended`: `amount_out = 1000` is returned
unchanged at `slippage_bps = 0` and zeroed at `slippage_bps = 10000`. -/
theorem min_output_floor_amended_witness :
    calcMinOutput 1000 0 = 1000 ∧ calcMinOutput 1000 10000 = 0 :=
  min_output_floor_amended 1000 (by norm_num)

/-! ## Stable-pool claims -/

/-- The invariant residual `specStableGap` is strictly monotone in `y` on
`(0, ∞)` (for positive `ann`, `d`, `x`), so the StableSwap invariant has at
most one positive solution `y` for fixed `ann`, `D`, `x`. -/
theorem specStableGap_strictMonoOn (ann d x : ℚ) (hann : 0 < ann) (hd : 0 < d)
    (hx : 0 < x) : StrictMonoOn (specStableGap ann d x) (Set.Ioi 0) := by
  intro y1 h1 y2 h2 h12
  have hy1 : (0 : ℚ) < y1 := h1
  have hy2 : (0 : ℚ) < y2 := h2
  have hdiff : specStableGap ann d x y2 - specStableGap ann d x y1 =
      ann * (y2 - y1) + d ^ 3 * (y2 - y1) / (4 * x * y1 * y2) := by
    unfold specStableGap
    field_simp
    ring
  have hpos : 0 < ann * (y2 - y1) + d ^ 3 * (y2 - y1) / (4 * x * y1 * y2) := by
    have h1' : 0 < ann * (y2 - y1) := mul_pos hann (by linarith)
    have h2' : 0 ≤ d ^ 3 * (y2 - y1) / (4 * x * y1 * y2) := by
      refine div_nonneg ?_ (by positivity)
      have : (0 : ℚ) ≤ y2 - y1 := by linarith
      positivity
    linarith
  linarith [hdiff, hpos]

/-- For the concrete pool of the C1 counterexample below
(equal reserves `10^6`, `amp = 100`, so `ann = 400`, `D = 2·10^6`) and an
unchanged input reserve `x_in' = x_in = 10^6`, the *only* positive solution
of the StableSwap invariant is `y = 10^6 = x_out`: the claimed second
Newton-Raphson pass can only return the original output reserve. -/
theorem specStableInvariant_unique_root :
    ∀ y : ℚ, 0 < y → specStableInvariant 400 2000000 1000000 y → y = 1000000 := by
  intro y hy hroot
  have hmono := specStableGap_strictMonoOn 400 2000000 1000000
    (by norm_num) (by norm_num) (by norm_num)
  have hgy : specStableGap 400 2000000 1000000 y = 0 := by
    unfold specStableGap
    unfold specStableInvariant at hroot
    linarith
  have hgx : specStableGap 400 2000000 1000000 1000000 = 0 := by
    unfold specStableGap
    norm_num
  exact hmono.injOn (Set.mem_Ioi.mpr hy) (by norm_num) (by rw [hgy, hgx])

/-- With zero fee and a net input below `2^53`, every `f64` step of the
stable path's net-input line is exact. -/
theorem stableNetIn_fee0_of_lt (a : ℕ) (h : a < 2 ^ 53) : stableNetIn a 0 = a := by
  unfold stableNetIn
  rw [show (1 : ℚ) - 0 = 1 by norm_num, fl_one, mul_one, fl_natCast_of_lt a h,
    fl_natCast_of_lt a h]
  refine castU64_natCast_of_le ?_
  have h1 : (2 : ℕ) ^ 53 ≤ 2 ^ 64 - 1 := by norm_num
  omega

/-- The saturating `as u64` cast sends the rounded value `2^64` to
`u64::MAX`. -/
theorem castU64_two_pow_64 : castU64 ((2 : ℚ) ^ 64) = 2 ^ 64 - 1 := by
  unfold castU64
  rw [show ⌊(2 : ℚ) ^ 64⌋ = 2 ^ 64 by norm_num]
  simp

/-- `amount_in = u64::MAX` at zero fee survives the net-input line as
`u64::MAX`: the conversion rounds it up to `2^64` and the saturating cast
brings it back. -/
theorem stableNetIn_u64max : stableNetIn (2 ^ 64 - 1) 0 = 2 ^ 64 - 1 := by
  unfold stableNetIn
  rw [show (1 : ℚ) - 0 = 1 by norm_num, fl_one, mul_one, fl_u64max, fl_two_pow_64]
  exact castU64_two_pow_64

theorem stableBlendT_zero : stableBlendT 0 = 0 := by
  unfold stableBlendT
  norm_num [fl_zero]

/-- At or above the `10000` clamp the blend weight is exactly `1.0`. -/
theorem stableBlendT_sat (amp : ℕ) (h : 10000 ≤ amp) : stableBlendT amp = 1 := by
  unfold stableBlendT
  rw [min_eq_right h]
  norm_num [fl_one]

/-- Saturated-amp evaluation of `calculate_stable_output`: with
`amp_factor ≥ 10000` the blend weight is exactly `1`, and when the 1:1 leg
`min(net, reserve_out - 1)` is below `2^53` every remaining `f64` step is
exact, so the quote is exactly that leg. -/
theorem stableCalcOutput_saturated (a ri ro amp : ℕ) (rs : List ℕ) (fee : ℚ)
    (hrs : rs.length = 2) (hamp : 10000 ≤ amp) (hro1 : 1 ≤ ro) (hro64 : ro < 2 ^ 64)
    (hov : ri + stableNetIn a fee < 2 ^ 64) (hpos : 1 ≤ ri + stableNetIn a fee)
    (hsmall : min (stableNetIn a fee) (ro - 1) < 2 ^ 53) :
    stableCalcOutput a ri ro rs amp fee = .ok (min (stableNetIn a fee) (ro - 1)) := by
  have ht : stableBlendT amp = 1 := stableBlendT_sat amp hamp
  simp only [stableCalcOutput, ht]
  rw [if_neg (by simp [hrs]), if_neg (by omega), if_neg (by omega), if_neg (by omega)]
  rw [show (1 : ℚ) - 1 = 0 by norm_num, fl_zero, mul_zero, fl_zero, mul_one]
  rw [fl_natCast_of_lt (min (stableNetIn a fee) (ro - 1)) hsmall]
  rw [fl_natCast_of_lt (min (stableNetIn a fee) (ro - 1)) hsmall]
  rw [zero_add]
  rw [fl_natCast_of_lt (min (stableNetIn a fee) (ro - 1)) hsmall]
  rw [castU64_natCast_of_le (by
    have h1 : (2 : ℕ) ^ 53 ≤ 2 ^ 64 - 1 := by norm_num
    omega : min (stableNetIn a fee) (ro - 1) ≤ 2 ^ 64 - 1)]
  rw [min_assoc, min_self]

/-- The balanced-pool evaluation shared by the stable claims: reserves
`(10^6, 10^6)`, `amp = 10000`, zero fee, `amount_in = 500000` quotes
`500000`. -/
theorem stable_eval_balanced_sat :
    stableCalcOutput 500000 1000000 1000000 [1000000, 1000000] 10000 0 = .ok 500000 := by
  have hnet : stableNetIn 500000 0 = 500000 := stableNetIn_fee0_of_lt 500000 (by norm_num)
  have h := stableCalcOutput_saturated 500000 1000000 1000000 10000
    [1000000, 1000000] 0 rfl le_rfl (by norm_num) (by norm_num)
    (by rw [hnet]; norm_num) (by rw [hnet]; norm_num) (by rw [hnet]; norm_num)
  rw [hnet] at h
  norm_num at h
  exact h

/-- C1 counterexample: the stable quote path does not solve the StableSwap
invariant.  (i) With reserves `(10^6, 10^6)`, `amp = 100`, `fee = 0.5`,
`amount_in = 1`: the fee consumes the whole input (`net = 0`, so
`x_in' = x_in`), `calculate_d` converges to `D = 2·10^6`, and `y = x_out`
satisfies the invariant — by `specStableInvariant_unique_root` it is the only
positive solution, so the claimed solve implies `x_out' = x_out ≥ x_out` and
the claim demands `InvalidPoolState`; the code instead returns `Ok 0`.
(ii) With `amp = 10000`, `fee = 0`, `amount_in = 500000` the code returns
`500000`, yet `y = x_out - 500000 = 500000` does not satisfy the invariant at
`ann = 40000`, `D = 2·10^6`, `x_in' = 1.5·10^6`: the returned amount is not
the invariant solution (the code blends a constant-product leg with a capped
1:1 leg instead; `calculate_d` is never called on the quote path). -/
theorem stable_invariant_claim_counterexample :
    stableCalcOutput 1 1000000 1000000 [1000000, 1000000] 100 (1 / 2) = .ok 0 ∧
    calcD [1000000, 1000000] 100 = .ok 2000000 ∧
    specStableInvariant 400 2000000 1000000 1000000 ∧
    stableCalcOutput 500000 1000000 1000000 [1000000, 1000000] 10000 0 = .ok 500000 ∧
    ¬ specStableInvariant 40000 2000000 1500000 500000 := by
  refine ⟨?_, ?_, ?_, stable_eval_balanced_sat, ?_⟩
  · have hnet : stableNetIn 1 (1 / 2) = 0 := by
      unfold stableNetIn
      rw [show (1 : ℚ) - 1 / 2 = 1 / 2 by norm_num, fl_half, Nat.cast_one, fl_one,
        one_mul, fl_half]
      unfold castU64
      norm_num
    norm_num [stableCalcOutput, hnet, stableAmmLeg, castU64, fl_zero]
  · rw [calcD]
    norm_num [List.foldl]
    rw [show (255 : ℕ) = 254 + 1 by norm_num]
    rw [calcDLoop]
    norm_num [List.foldl]
  · rw [specStableInvariant]
    norm_num
  · intro h
    rw [specStableInvariant] at h
    norm_num at h

/-- C1 amended: `calculate_stable_output` does not solve the StableSwap
invariant; it blends the constant-product output with the capped 1:1 output
`min(net, reserve_out - 1)` — `net` being the f64-computed
`(amount_in as f64 * (1.0 - fee_rate)) as u64` — by the weight
`min(amp_factor, 10000)/10000` and caps the result at `reserve_out - 1`; no
`InvalidPoolState` arises from any invariant check (only from
`reserves.len() != 2`), and `calculate_d`'s Newton-Raphson iteration is
unused by the quote path.  In particular, once `amp_factor ≥ 10000`, the
quote is exactly `min(net, reserve_out - 1)` whenever that value is below
`2^53` (so that the blend's own f64 steps are exact). -/
theorem stable_amp_saturated_output (a ri ro amp : ℕ) (rs : List ℕ) (fee : ℚ)
    (hrs : rs.length = 2) (hamp : 10000 ≤ amp) (hro1 : 1 ≤ ro) (hro64 : ro < 2 ^ 64)
    (hov : ri + stableNetIn a fee < 2 ^ 64) (hpos : 1 ≤ ri + stableNetIn a fee)
    (hsmall : min (stableNetIn a fee) (ro - 1) < 2 ^ 53) :
    stableCalcOutput a ri ro rs amp fee = .ok (min (stableNetIn a fee) (ro - 1)) :=
  stableCalcOutput_saturated a ri ro amp rs fee hrs hamp hro1 hro64 hov hpos hsmall

/-- Witness for `stable_amp_saturated_output`: reserves `(10^6, 10^6)`,
`amp = 10000`, `fee = 0`, `amount_in = 500000` quotes exactly the capped net
input. -/
theorem stable_amp_saturated_output_witness :
    stableCalcOutput 500000 1000000 1000000 [1000000, 1000000] 10000 0 =
      .ok (min (stableNetIn 500000 0) (1000000 - 1)) :=
  stable_amp_saturated_output 500000 1000000 1000000 10000 [1000000, 1000000] 0
    rfl (by norm_num) (by norm_num) (by norm_num)
    (by rw [stableNetIn_fee0_of_lt 500000 (by norm_num)]; norm_num)
    (by rw [stableNetIn_fee0_of_lt 500000 (by norm_num)]; norm_num)
    (by rw [stableNetIn_fee0_of_lt 500000 (by norm_num)]; norm_num)

theorem fl_100 : fl (100 : ℚ) = 100 :=
  fl_fix_of_natCast 100 100 (by norm_num) (by norm_num)

theorem fl_500000 : fl (500000 : ℚ) = 500000 :=
  fl_fix_of_natCast 500000 500000 (by norm_num) (by norm_num)

/-- The imbalanced pool `(100, 10^6)` at `amp = 0`: the blend is purely the
constant-product leg and quotes `500000`. -/
theorem stable_eval_imbalanced_amp0 :
    stableCalcOutput 100 100 1000000 [100, 1000000] 0 0 = .ok 500000 := by
  have hnet : stableNetIn 100 0 = 100 := stableNetIn_fee0_of_lt 100 (by norm_num)
  norm_num [stableCalcOutput, hnet, stableAmmLeg, stableBlendT_zero, castU64,
    fl_zero, fl_one, fl_100, fl_500000]
  try simp
  try norm_num

/-- The imbalanced pool `(100, 10^6)` at `amp = 10000`: the blend is purely
the capped 1:1 leg and quotes `100`. -/
theorem stable_eval_imbalanced_sat :
    stableCalcOutput 100 100 1000000 [100, 1000000] 10000 0 = .ok 100 := by
  have hnet : stableNetIn 100 0 = 100 := stableNetIn_fee0_of_lt 100 (by norm_num)
  have h := stableCalcOutput_saturated 100 100 1000000 10000 [100, 1000000] 0
    rfl le_rfl (by norm_num) (by norm_num)
    (by rw [hnet]; norm_num) (by rw [hnet]; norm_num) (by rw [hnet]; norm_num)
  rw [hnet] at h
  norm_num at h
  exact h

/-- C3 counterexample: reserves `(100, 10^6)`, `fee = 0`, `amount_in = 100`.
At `amp_factor = 0` the blend is pure constant-product and quotes `500000`;
at `amp_factor = 10000` it is pure capped-1:1 and quotes `100`.  Raising the
amplification factor lowered the quote: `amount_out` is not a non-decreasing
function of `amp_factor` when the output-side reserve dwarfs the input-side
one. -/
theorem stable_amp_monotone_counterexample :
    stableCalcOutput 100 100 1000000 [100, 1000000] 0 0 = .ok 500000 ∧
    stableCalcOutput 100 100 1000000 [100, 1000000] 10000 0 = .ok 100 ∧
    (100 : ℕ) < 500000 :=
  ⟨stable_eval_imbalanced_amp0, stable_eval_imbalanced_sat, by norm_num⟩

/-- C3 amended: the quote is not monotone in `amp_factor` (see the
counterexample: a larger amp factor can lower the quote when the
constant-product leg exceeds the capped 1:1 leg); moreover `amp_factor` is
clamped at `10000` — the blend weight is `min(amp_factor, 10000)/10000` — so
all amplification factors from `10000` up produce the identical quote on
every pool: beyond the clamp the parameter has no effect at all. -/
theorem stable_amp_clamped (a ri ro amp1 amp2 : ℕ) (rs : List ℕ) (fee : ℚ)
    (h1 : 10000 ≤ amp1) (h2 : 10000 ≤ amp2) :
    stableCalcOutput a ri ro rs amp1 fee = stableCalcOutput a ri ro rs amp2 fee := by
  unfold stableCalcOutput
  rw [show stableBlendT amp1 = stableBlendT amp2 by
    rw [stableBlendT_sat amp1 h1, stableBlendT_sat amp2 h2]]

/-- Witness for `stable_amp_clamped`: on the imbalanced pool, `amp = 10000`
and `amp = 20000` give the same result. -/
theorem stable_amp_clamped_witness :
    stableCalcOutput 100 100 1000000 [100, 1000000] 10000 0 =
      stableCalcOutput 100 100 1000000 [100, 1000000] 20000 0 :=
  stable_amp_clamped 100 100 1000000 10000 20000 [100, 1000000] 0
    (by norm_num) (by norm_num)

/-- C10: a stable quote never promises the whole output reserve: every
successful `calculate_stable_output` result is capped at `reserve_out - 1`
by the final `min` (`stable_calculator.rs:118`), whatever `amount_in`,
`amp_factor` or fee rate produced the blended value. -/
theorem stable_output_le_reserve_out (a ri ro : ℕ) (rs : List ℕ) (amp : ℕ)
    (fee : ℚ) : ∀ v, stableCalcOutput a ri ro rs amp fee = .ok v → v ≤ ro - 1 := by
  intro v h
  simp only [stableCalcOutput] at h
  split_ifs at h
  all_goals first
    | exact (Outcome.noConfusion h)
    | (obtain rfl := (Outcome.ok.inj h).symm; exact min_le_right _ _)

/-- Witness for `stable_output_le_reserve_out`: the saturated quote of `100`
on the imbalanced pool stays below the output reserve of `10^6`. -/
theorem stable_output_le_reserve_out_witness :
    stableCalcOutput 100 100 1000000 [100, 1000000] 10000 0 = .ok 100 ∧
    (100 : ℕ) ≤ 1000000 - 1 :=
  ⟨stable_eval_imbalanced_sat, stable_output_le_reserve_out 100 100 1000000
    [100, 1000000] 10000 0 100 stable_eval_imbalanced_sat⟩

/-! ## CLMM claim C5 -/

/-- The ten-step Newton iteration for the square root stays strictly
positive when started from a positive seed with a positive radicand, so
`tick_to_sqrt_price` always returns a positive value. -/
theorem clmmNewtonSqrt_pos (price : ℚ) (hp : 0 < price) :
    ∀ fuel : ℕ, ∀ x : ℚ, 0 < x → ∃ s, clmmNewtonSqrt price fuel x = .ok s ∧ 0 < s := by
  intro fuel
  induction fuel with
  | zero => exact fun x hx => ⟨x, rfl, hx⟩
  | succ n ih =>
    intro x hx
    have hx' : (0 : ℚ) < (x + price / x) / 2 := by positivity
    obtain ⟨s, hs, hspos⟩ := ih ((x + price / x) / 2) hx'
    refine ⟨s, ?_, hspos⟩
    rw [clmmNewtonSqrt, if_neg hx.ne']
    exact hs

/-- C5 (code bug): with a valid CLMM pool (tick 0, liquidity `10^12`,
fee tier 500) and `amount_in = 0`, the quote path does *not* return a zero
quote: `calculate_clmm_output` yields `Ok(0)`, but
`calculate_price_impact` then evaluates
`Decimal::from(amount_out) / Decimal::from(amount_in)` with a zero divisor
(`clmm_calculator.rs:132`), which panics in `rust_decimal` - modelled as the
`.panic` outcome.  The AMM, Standard and Stable paths all guard
`amount_in = 0`; the spec requires all four to return a zero-output quote. -/
theorem clmm_zero_amount_in_panics :
    clmmCalculateQuote ⟨.clmm, 1, 2, "SOL", "USDC", 1 / 2000, .clmm 0 1 1000000000000 500⟩
      ⟨1, 2, 0, 50⟩ = .panic := by
  have hprice : tickToPrice 0 = .ok 1 := by
    rw [tickToPrice]
    norm_num [clmmPowLoop]
  obtain ⟨s, hs, hspos⟩ := clmmNewtonSqrt_pos 1 one_pos 10 (1 / 2) (by norm_num)
  have hsqrt : tickToSqrtPrice 0 = .ok s := by
    rw [tickToSqrtPrice, hprice]
    exact hs
  have hout : clmmCalcOutput 0 0 1000000000000 500 true = .ok 0 := by
    rw [clmmCalcOutput]
    rw [if_neg (by norm_num)]
    rw [hsqrt]
    norm_num [castU64]
    rw [if_neg (not_le.mpr hspos)]
    norm_num
  have himpact : clmmQuotePriceImpact 0 0 0 = .panic := by
    rw [clmmQuotePriceImpact, hprice]
    norm_num
  rw [clmmCalculateQuote]
  norm_num [hout, himpact]

/-! ## Pool-cache claim C7 -/

/-- Looking a key up after erasing a (possibly different) key: erased keys
read as absent, others unchanged. -/
theorem cacheLookup_erase {α : Type} (k k' : ℕ × ℕ) (m : PoolCacheMap α) :
    cacheLookup k (cacheErase k' m) = if k = k' then none else cacheLookup k m := by
  induction m with
  | nil =>
    simp only [cacheErase, cacheLookup, ite_self]
  | cons kv rest ih =>
    obtain ⟨k0, e⟩ := kv
    rw [cacheErase]
    by_cases h0 : k0 = k'
    · rw [if_pos h0, ih]
      by_cases hk : k = k'
      · rw [if_pos hk, if_pos hk]
      · rw [if_neg hk, if_neg hk, cacheLookup, if_neg (by rw [h0]; exact fun h => hk h.symm)]
    · rw [if_neg h0, cacheLookup, ih]
      by_cases hk : k0 = k
      · rw [if_pos hk, if_neg (by rw [← hk]; exact h0), cacheLookup, if_pos hk]
      · rw [if_neg hk]
        by_cases hk' : k = k'
        · rw [if_pos hk', if_pos hk']
        · rw [if_neg hk', if_neg hk', cacheLookup, if_neg hk]

/-- C7: after `set((a,b), v)` at time `t` with time-to-live `ttl`, a `get`
on the swapped ordering `(b,a)` before the TTL elapses returns `Some v`;
once the TTL has elapsed (`t + ttl ≤ now`, matching the strict
`expires_at > now` liveness test), `get` on either ordering returns `None` -
whatever the cache previously held under those keys. -/
theorem cache_bidirectional_ttl {α : Type} (a b : ℕ) (v : α) (ttl t tq : ℕ)
    (m : PoolCacheMap α) :
    (tq < t + ttl →
      (cacheGet tq (b, a) (cacheSet t ttl (a, b) v m)).1 = some v) ∧
    (t + ttl ≤ tq →
      (cacheGet tq (b, a) (cacheSet t ttl (a, b) v m)).1 = none ∧
      (cacheGet tq (a, b) (cacheSet t ttl (a, b) v m)).1 = none) := by
  constructor
  · intro hlive
    simp only [cacheGet, cacheSet, cacheInsert, cacheGetLoop, cacheLookup, if_pos rfl,
      if_true]
    rw [if_pos hlive]
  · intro hexp
    have hnotlive : ¬ tq < t + ttl := not_lt.mpr hexp
    by_cases hab : a = b
    · subst hab
      constructor
      · simp only [cacheGet, cacheSet, cacheInsert, cacheGetLoop, cacheLookup,
          cacheLookup_erase, if_pos rfl, if_true, if_neg hnotlive]
      · simp only [cacheGet, cacheSet, cacheInsert, cacheGetLoop, cacheLookup,
          cacheLookup_erase, if_pos rfl, if_true, if_neg hnotlive]
    · have hpair1 : ((a, b) : ℕ × ℕ) ≠ (b, a) := by
        intro h
        exact hab (congrArg Prod.fst h)
      have hpair2 : ((b, a) : ℕ × ℕ) ≠ (a, b) := fun h => hpair1 h.symm
      constructor
      · simp only [cacheGet, cacheSet, cacheInsert, cacheGetLoop, cacheLookup,
          cacheLookup_erase, if_pos rfl, if_true, if_neg hnotlive, if_neg hpair1,
          if_neg hpair2]
      · simp only [cacheGet, cacheSet, cacheInsert, cacheGetLoop, cacheLookup,
          cacheLookup_erase, if_pos rfl, if_true, if_neg hnotlive, if_neg hpair1,
          if_neg hpair2]

/-- Witness for `cache_bidirectional_ttl`: a fresh cache, `ttl = 30`,
`set` at 0, reverse-ordering reads at 10 (hit) and 30 (expired, both
orderings miss). -/
theorem cache_bidirectional_ttl_witness :
    (cacheGet 10 (2, 1) (cacheSet 0 30 (1, 2) [5] ([] : PoolCacheMap (List ℕ)))).1 =
      some [5] ∧
    (cacheGet 30 (2, 1) (cacheSet 0 30 (1, 2) [5] ([] : PoolCacheMap (List ℕ)))).1 =
      none ∧
    (cacheGet 30 (1, 2) (cacheSet 0 30 (1, 2) [5] ([] : PoolCacheMap (List ℕ)))).1 =
      none :=
  ⟨(cache_bidirectional_ttl 1 2 [5] 30 0 10 []).1 (by norm_num),
    ((cache_bidirectional_ttl 1 2 [5] 30 0 30 []).2 (by norm_num)).1,
    ((cache_bidirectional_ttl 1 2 [5] 30 0 30 []).2 (by norm_num)).2⟩

/-! ## Selector claim C8 -/

/-- Folding `selStep` from a seeded accumulator yields an element of the
accumulator-or-list that every scanned key is below: the inductive core of
`max_by_key`. -/
theorem foldl_selStep_some (l : List SelQuote) : ∀ x : SelQuote,
    ∃ m, l.foldl selStep (some x) = some m ∧ (m = x ∨ m ∈ l) ∧
      selKey x ≤ selKey m ∧ ∀ q ∈ l, selKey q ≤ selKey m := by
  induction l with
  | nil => exact fun x => ⟨x, rfl, Or.inl rfl, le_rfl, by simp⟩
  | cons q l ih =>
    intro x
    rw [List.foldl_cons]
    by_cases h : selKey x ≤ selKey q
    · obtain ⟨m, heq, hmem, hle, hall⟩ := ih q
      rw [show selStep (some x) q = some q by rw [selStep]; exact if_pos h] at *
      refine ⟨m, heq, ?_, le_trans h hle, ?_⟩
      · rcases hmem with h' | h'
        · exact Or.inr (h' ▸ List.mem_cons_self q l)
        · exact Or.inr (List.mem_cons_of_mem q h')
      · intro q' hq'
        rcases List.mem_cons.mp hq' with h' | h'
        · exact h' ▸ hle
        · exact hall q' h'
    · obtain ⟨m, heq, hmem, hle, hall⟩ := ih x
      rw [show selStep (some x) q = some x by rw [selStep]; exact if_neg h] at *
      refine ⟨m, heq, ?_, hle, ?_⟩
      · rcases hmem with h' | h'
        · exact Or.inl h'
        · exact Or.inr (List.mem_cons_of_mem q h')
      · intro q' hq'
        rcases List.mem_cons.mp hq' with h' | h'
        · exact h' ▸ le_trans (le_of_not_le h) hle
        · exact hall q' h'

/-- C8 counterexample to the unbounded-key reading: a reachable quote can
carry `amount_out = 2^64 - 2` (a stable USDC/USDT pool with reserves
`[0, 2^64 - 1]`, `amp = 10000`, zero fee and `amount_in = 2^64 - 1`: the
net input rounds up to `2^64`, saturates back to `u64::MAX`, and the capped
1:1 leg quotes `2^64 - 2`); on such a quote the selector's key
`amount_out + 1000` no longer fits in a `u64`, so the `max_by_key` closure's
addition overflows and `select_best_pool` panics (debug semantics) instead
of returning the best quote. -/
theorem select_best_key_overflow_counterexample :
    stableCalcOutput (2 ^ 64 - 1) 0 (2 ^ 64 - 1) [0, 2 ^ 64 - 1] 10000 0 =
      .ok (2 ^ 64 - 2) ∧
    selKey ⟨2 ^ 64 - 2, ⟨.stable, 1, 2, "USDC", "USDT", 0,
      .stable [0, 2 ^ 64 - 1] 10000⟩⟩ = 2 ^ 64 - 2 + 1000 ∧
    2 ^ 64 ≤ 2 ^ 64 - 2 + 1000 ∧
    selectBestPool [⟨.stable, 1, 2, "USDC", "USDT", 0, .stable [0, 2 ^ 64 - 1] 10000⟩]
      (fun p => .ok ⟨2 ^ 64 - 2, p⟩) = .panic := by
  refine ⟨?_, by decide, by norm_num, ?_⟩
  · have ht := stableBlendT_sat 10000 le_rfl
    have hnet := stableNetIn_u64max
    simp only [stableCalcOutput, ht, hnet]
    rw [if_neg (by norm_num), if_neg (by norm_num), if_neg (by norm_num),
      if_neg (by norm_num)]
    rw [show stableAmmLeg 0 (2 ^ 64 - 1) (2 ^ 64 - 1) = 2 ^ 64 - 1 by
      norm_num [stableAmmLeg]]
    rw [show min (2 ^ 64 - 1) (2 ^ 64 - 1 - 1) = 2 ^ 64 - 2 by norm_num]
    rw [show (1 : ℚ) - 1 = 0 by norm_num, fl_zero, mul_zero, fl_zero, mul_one]
    rw [fl_u64max_sub_one, fl_two_pow_64, zero_add, fl_two_pow_64]
    rw [castU64_two_pow_64]
    norm_num
  · rw [selectBestPool, if_neg (by simp)]
    rw [show getQuotesFromPools
        [⟨.stable, 1, 2, "USDC", "USDT", 0, .stable [0, 2 ^ 64 - 1] 10000⟩]
        (fun p => .ok ⟨2 ^ 64 - 2, p⟩) =
        [⟨2 ^ 64 - 2, ⟨.stable, 1, 2, "USDC", "USDT", 0,
          .stable [0, 2 ^ 64 - 1] 10000⟩⟩] from rfl]
    rw [maxBySelKey, if_neg]
    intro h
    have := h ⟨2 ^ 64 - 2, ⟨.stable, 1, 2, "USDC", "USDT", 0,
      .stable [0, 2 ^ 64 - 1] 10000⟩⟩ (List.mem_singleton.mpr rfl)
    rw [show selKey ⟨2 ^ 64 - 2, ⟨.stable, 1, 2, "USDC", "USDT", 0,
      .stable [0, 2 ^ 64 - 1] 10000⟩⟩ = 2 ^ 64 - 2 + 1000 from by decide] at this
    norm_num at this

/-- C8: provided every surviving quote's ranking key `amount_out + bonus`
fits in a `u64` (otherwise `max_by_key` panics), `select_best_pool` quotes
every discovered pool, keeps the successes, and returns a quote maximizing
`amount_out + bonus` (1000 for a Stable pool on a recognized stablecoin
pair, 100 for CLMM, 0 otherwise); it returns `None` - not an error - exactly
when discovery found no pools or every per-pool quote failed. -/
theorem select_best_pool_spec (pools : List PoolInfo)
    (quoteEngine : PoolInfo → Except SwapError SelQuote)
    (hk : ∀ q ∈ getQuotesFromPools pools quoteEngine, selKey q < 2 ^ 64) :
    (selectBestPool pools quoteEngine = .ok none ↔
      pools = [] ∨ getQuotesFromPools pools quoteEngine = []) ∧
    ∀ m, selectBestPool pools quoteEngine = .ok (some m) →
      m ∈ getQuotesFromPools pools quoteEngine ∧
      ∀ q ∈ getQuotesFromPools pools quoteEngine, selKey q ≤ selKey m := by
  by_cases hp : pools = []
  · rw [selectBestPool, if_pos hp]
    subst hp
    refine ⟨by simp, fun m hm => ?_⟩
    exact Option.noConfusion (Outcome.ok.inj hm)
  · rw [selectBestPool, if_neg hp]
    rcases hq : getQuotesFromPools pools quoteEngine with _ | ⟨q, l⟩
    · rw [maxBySelKey, if_pos (by simp)]
      refine ⟨by simp [hq], fun m hm => ?_⟩
      exact Option.noConfusion (Outcome.ok.inj hm)
    · obtain ⟨m, heq, hmem, hle, hall⟩ := foldl_selStep_some l q
      have hfold : maxBySelKey (q :: l) = .ok (some m) := by
        rw [maxBySelKey, if_pos (by rw [← hq]; exact hk), List.foldl_cons]
        rw [show selStep none q = some q from rfl]
        rw [heq]
      rw [hfold]
      constructor
      · constructor
        · intro h
          exact Option.noConfusion (Outcome.ok.inj h)
        · intro h
          rcases h with h | h
          · exact absurd h hp
          · exact List.noConfusion h
      · intro m' hm'
        obtain rfl := Option.some.inj (Outcome.ok.inj hm')
        refine ⟨?_, ?_⟩
        · rcases hmem with h' | h'
          · exact h' ▸ List.mem_cons_self q l
          · exact List.mem_cons_of_mem q h'
        · intro q' hq'
          rcases List.mem_cons.mp hq' with h' | h'
          · exact h' ▸ hle
          · exact hall q' h'

/-- Witness for `select_best_pool_spec`: three pools of which the Standard
one fails to quote; the CLMM quote of 50 beats the AMM quote of 100 on the
bonus-adjusted key (150 vs 100), matching Rust's `max_by_key`. -/
theorem select_best_pool_spec_witness :
    selectBestPool
        [⟨.amm, 1, 2, "SOL", "USDC", 0, .amm 5 5 0⟩,
          ⟨.clmm, 3, 4, "SOL", "USDC", 0, .clmm 0 1 9 500⟩,
          ⟨.standard, 9, 9, "X", "Y", 0, .standard 0 0⟩]
        (fun p => match p.poolType with
          | .clmm => .ok ⟨50, p⟩
          | .amm => .ok ⟨100, p⟩
          | _ => .error .mathOverflow) =
      .ok (some ⟨50, ⟨.clmm, 3, 4, "SOL", "USDC", 0, .clmm 0 1 9 500⟩⟩) ∧
    (⟨50, ⟨.clmm, 3, 4, "SOL", "USDC", 0, .clmm 0 1 9 500⟩⟩ : SelQuote) ∈
      getQuotesFromPools
        [⟨.amm, 1, 2, "SOL", "USDC", 0, .amm 5 5 0⟩,
          ⟨.clmm, 3, 4, "SOL", "USDC", 0, .clmm 0 1 9 500⟩,
          ⟨.standard, 9, 9, "X", "Y", 0, .standard 0 0⟩]
        (fun p => match p.poolType with
          | .clmm => .ok ⟨50, p⟩
          | .amm => .ok ⟨100, p⟩
          | _ => .error .mathOverflow) :=
  ⟨by decide,
    ((select_best_pool_spec
        [⟨.amm, 1, 2, "SOL", "USDC", 0, .amm 5 5 0⟩,
          ⟨.clmm, 3, 4, "SOL", "USDC", 0, .clmm 0 1 9 500⟩,
          ⟨.standard, 9, 9, "X", "Y", 0, .standard 0 0⟩]
        (fun p => match p.poolType with
          | .clmm => .ok ⟨50, p⟩
          | .amm => .ok ⟨100, p⟩
          | _ => .error .mathOverflow) (by decide)).2
      ⟨50, ⟨.clmm, 3, 4, "SOL", "USDC", 0, .clmm 0 1 9 500⟩⟩ (by decide)).1⟩
